import Mathlib

/-!
Shallow embedding of `core/arch/arm/plat-ls/main.c` (OP-TEE NXP Layerscape
platform glue): the CSU security-domain configurator and secondary-core
release in `plat_cpu_reset_late`, the revision-aware GIC locator
`get_gic_offset`, `main_init_gic`, the boot handler table `handlers`, and
the hardware-unique-key broker `tee_otp_get_hw_unique_key`.

Memory-mapped hardware is modelled as a 32-bit register file indexed by
address together with an explicit trace of register-access events, so that
both final register contents and the order of hardware operations can be
stated.  A `panic()` that never returns is modelled as `none` / a `halted`
result.  Platform constants that live in `platform_config.h` (not part of
this fragment) are abstract parameters gathered in configuration
structures.
-/

/-- Byte swap of a 32-bit value, modelling the `__compiler_bswap32` builtin
applied by the code to every value written to or read from the big-endian
device registers. -/
def bswap32 (v : Nat) : Nat :=
  v % 2 ^ 8 * 2 ^ 24 + v / 2 ^ 8 % 2 ^ 8 * 2 ^ 16 + v / 2 ^ 16 % 2 ^ 8 * 2 ^ 8 +
    v / 2 ^ 24 % 2 ^ 8

/-- Observable hardware events: 32-bit register writes and reads (with the
value transferred), the `dsb` memory barrier and the `sev` wake event. -/
inductive Event where
  | wr (addr val : Nat)
  | rd (addr val : Nat)
  | dsb
  | sev
deriving DecidableEq, Repr

/-- Machine state: the 32-bit register file indexed by (virtual) address,
plus the trace of hardware events in execution order. -/
structure St where
  mem : Nat → Nat
  tr : List Event

/-- The register-access layer's `write32(val, addr)`: stores the low 32 bits
of `val` at `addr` and records the event. -/
def write32 (val addr : Nat) (s : St) : St :=
  { mem := fun x => if x = addr then val % 2 ^ 32 else s.mem x
    tr := s.tr ++ [Event.wr addr val] }

/-- The register-access layer's `read32(addr)`: the 32-bit value currently
stored at `addr`. -/
def read32 (addr : Nat) (s : St) : Nat := s.mem addr % 2 ^ 32

/-- The `dsb()` barrier: records the event. -/
def dsbOp (s : St) : St := { s with tr := s.tr ++ [Event.dsb] }

/-- The `sev()` wake event: records the event. -/
def sevOp (s : St) : St := { s with tr := s.tr ++ [Event.sev] }

/-- Platform constants of the CSU block, from `platform_config.h` (macros
`CSU_BASE`, `CSU_CSL_START`, `CSU_CSL_END`, `CSU_CSL30`, `CSU_CSL37`,
`CSU_ACCESS_ALL`, `CSU_ACCESS_SEC_ONLY`, `CSU_SETTING_LOCK`).  The header is
outside this fragment, so the constants stay abstract parameters. -/
structure CsuConfig where
  base : Nat
  cslStart : Nat
  cslEnd : Nat
  csl30 : Nat
  csl37 : Nat
  accessAll : Nat
  accessSecOnly : Nat
  settingLock : Nat

/-- Platform constants used by the secondary-core release block, from
`platform_config.h` (`DCFG_BASE`, `DCFG_SCRATCHRW1`, `DCFG_CCSR_BRR`,
`TEE_LOAD_ADDR`). -/
structure DcfgConfig where
  dcfgBase : Nat
  scratchrw1 : Nat
  ccsrBrr : Nat
  teeLoadAddr : Nat

/-- The addresses visited by the CSU loop
`for (addr = CSU_BASE + CSU_CSL_START; addr != CSU_BASE + CSU_CSL_END; addr += 4)`:
one word-aligned slot every 4 bytes from the start offset up to (excluding)
the end offset. -/
def csuSlots (cfg : CsuConfig) : List Nat :=
  (List.range ((cfg.cslEnd - cfg.cslStart) / 4)).map fun i =>
    cfg.base + cfg.cslStart + 4 * i

/-- First CSU pass of `plat_cpu_reset_late`: grant all peripherals by
writing `CSU_ACCESS_ALL` (byte-swapped) to every slot. -/
def grantPass (cfg : CsuConfig) (s : St) : St :=
  (csuSlots cfg).foldl (fun s addr => write32 (bswap32 cfg.accessAll) addr s) s

/-- Second CSU pass: restrict the two key peripherals from normal world by
writing `CSU_ACCESS_SEC_ONLY` (byte-swapped) to slots CSL30 and CSL37, in
that order. -/
def restrictPass (cfg : CsuConfig) (s : St) : St :=
  write32 (bswap32 cfg.accessSecOnly) (cfg.base + cfg.csl37)
    (write32 (bswap32 cfg.accessSecOnly) (cfg.base + cfg.csl30) s)

/-- One step of the lock loop: `write32(read32(addr) | bswap32(CSU_SETTING_LOCK), addr)`,
recording the read and the write. -/
def lockStep (cfg : CsuConfig) (s : St) (addr : Nat) : St :=
  write32 (read32 addr s ||| bswap32 cfg.settingLock) addr
    { s with tr := s.tr ++ [Event.rd addr (read32 addr s)] }

/-- Third CSU pass: lock every slot by reading it back and writing the value
with the lock bit ORed in. -/
def lockPass (cfg : CsuConfig) (s : St) : St :=
  (csuSlots cfg).foldl (lockStep cfg) s

/-- The `CFG_BOOT_SECONDARY_REQUEST` block of `plat_cpu_reset_late`: publish
the secondary entry address in `DCFG_SCRATCHRW1`, release cpu1 through
`DCFG_CCSR_BRR`, then `dsb(); sev();`. -/
def releaseSeq (dc : DcfgConfig) (s : St) : St :=
  sevOp (dsbOp (write32 (bswap32 (1 <<< 1)) (dc.dcfgBase + dc.ccsrBrr)
    (write32 (bswap32 dc.teeLoadAddr) (dc.dcfgBase + dc.scratchrw1) s)))

/-- Model of `plat_cpu_reset_late` (the `CFG_ARM32_core` variant): on the primary
core (`get_core_pos() == 0`) optionally run the secondary release block
(when built with `CFG_BOOT_SECONDARY_REQUEST`), then the three CSU passes;
on any other core do nothing. -/
def plat_cpu_reset_late (cfg : CsuConfig) (dc : DcfgConfig)
    (bootSecondaryRequest : Bool) (corePos : Nat) (s : St) : St :=
  if corePos = 0 then
    lockPass cfg (restrictPass cfg (grantPass cfg
      (if bootSecondaryRequest then releaseSeq dc s else s)))
  else s

/-- The write events emitted by the grant pass, in order. -/
def grantEvents (cfg : CsuConfig) : List Event :=
  (csuSlots cfg).map fun a => Event.wr a (bswap32 cfg.accessAll)

/-- The write events emitted by the restrict pass, in order. -/
def restrictEvents (cfg : CsuConfig) : List Event :=
  [Event.wr (cfg.base + cfg.csl30) (bswap32 cfg.accessSecOnly),
   Event.wr (cfg.base + cfg.csl37) (bswap32 cfg.accessSecOnly)]

/-- The read/write events emitted by the lock pass over slots `L` when the
register file holds `m` as the pass starts. -/
def lockEvents (cfg : CsuConfig) (L : List Nat) (m : Nat → Nat) : List Event :=
  L.flatMap fun a =>
    [Event.rd a (m a % 2 ^ 32), Event.wr a (m a % 2 ^ 32 ||| bswap32 cfg.settingLock)]

/-- The four events emitted by the secondary-core release block, in order:
entry-address write, release-bitmask write, barrier, wake event. -/
def releaseEvents (dc : DcfgConfig) : List Event :=
  [Event.wr (dc.dcfgBase + dc.scratchrw1) (bswap32 dc.teeLoadAddr),
   Event.wr (dc.dcfgBase + dc.ccsrBrr) (bswap32 (1 <<< 1)),
   Event.dsb, Event.sev]

/-- Register file after the grant and restrict passes have run on `m`. -/
def midMem (cfg : CsuConfig) (m : Nat → Nat) : Nat → Nat :=
  (restrictPass cfg (grantPass cfg { mem := m, tr := [] })).mem

/-- Register file after the secondary release block has run on `m`. -/
def releaseMem (dc : DcfgConfig) (m : Nat → Nat) : Nat → Nat :=
  (releaseSeq dc { mem := m, tr := [] }).mem

theorem bswap32_lt (v : Nat) : bswap32 v < 2 ^ 32 := by
  unfold bswap32
  have e8 : (2 : Nat) ^ 8 = 256 := rfl
  have e16 : (2 : Nat) ^ 16 = 65536 := rfl
  have e24 : (2 : Nat) ^ 24 = 16777216 := rfl
  have e32 : (2 : Nat) ^ 32 = 4294967296 := rfl
  have h0 : v % 2 ^ 8 < 2 ^ 8 := Nat.mod_lt _ (by norm_num)
  have h1 : v / 2 ^ 8 % 2 ^ 8 < 2 ^ 8 := Nat.mod_lt _ (by norm_num)
  have h2 : v / 2 ^ 16 % 2 ^ 8 < 2 ^ 8 := Nat.mod_lt _ (by norm_num)
  have h3 : v / 2 ^ 24 % 2 ^ 8 < 2 ^ 8 := Nat.mod_lt _ (by norm_num)
  rw [e8, e16, e24] at *
  rw [e32]
  omega

theorem lor_lt_32 {x y : Nat} (hx : x < 2 ^ 32) (hy : y < 2 ^ 32) :
    x ||| y < 2 ^ 32 :=
  Nat.bitwise_lt_two_pow hx hy

theorem csuSlots_nodup (cfg : CsuConfig) : (csuSlots cfg).Nodup := by
  refine List.Nodup.map ?_ (List.nodup_range _)
  intro i j h
  dsimp only at h
  omega

theorem foldl_write_mem (V : Nat) (L : List Nat) (s : St) (a : Nat) :
    ((L.foldl (fun s addr => write32 V addr s) s).mem a)
      = if a ∈ L then V % 2 ^ 32 else s.mem a := by
  induction L generalizing s with
  | nil => simp
  | cons x xs ih =>
    rw [List.foldl_cons, ih]
    rcases Decidable.em (a ∈ xs) with h1 | h1
    · simp [h1]
    · rcases Decidable.em (a = x) with h2 | h2 <;> simp [h1, h2, write32]

theorem foldl_write_tr (V : Nat) (L : List Nat) (s : St) :
    ((L.foldl (fun s addr => write32 V addr s) s).tr)
      = s.tr ++ L.map fun a => Event.wr a V := by
  induction L generalizing s with
  | nil => simp
  | cons x xs ih =>
    rw [List.foldl_cons, ih]
    simp [write32]

theorem grantPass_mem (cfg : CsuConfig) (s : St) (a : Nat) :
    (grantPass cfg s).mem a
      = if a ∈ csuSlots cfg then bswap32 cfg.accessAll % 2 ^ 32 else s.mem a :=
  foldl_write_mem _ _ s a

theorem grantPass_tr (cfg : CsuConfig) (s : St) :
    (grantPass cfg s).tr = s.tr ++ grantEvents cfg :=
  foldl_write_tr _ _ s

theorem restrictPass_mem (cfg : CsuConfig) (s : St) (a : Nat) :
    (restrictPass cfg s).mem a
      = if a = cfg.base + cfg.csl37 then bswap32 cfg.accessSecOnly % 2 ^ 32
        else if a = cfg.base + cfg.csl30 then bswap32 cfg.accessSecOnly % 2 ^ 32
        else s.mem a := by
  simp only [restrictPass, write32]

theorem restrictPass_tr (cfg : CsuConfig) (s : St) :
    (restrictPass cfg s).tr = s.tr ++ restrictEvents cfg := by
  simp [restrictPass, write32, restrictEvents]

theorem lockEvents_congr (cfg : CsuConfig) (L : List Nat) (m1 m2 : Nat → Nat)
    (h : ∀ a ∈ L, m1 a = m2 a) : lockEvents cfg L m1 = lockEvents cfg L m2 := by
  induction L with
  | nil => rfl
  | cons x xs ih =>
    simp only [lockEvents, List.flatMap_cons] at *
    rw [h x (by simp), ih fun a ha => h a (by simp [ha])]

theorem foldl_lock_mem (cfg : CsuConfig) (L : List Nat) (hL : L.Nodup) (s : St)
    (a : Nat) :
    ((L.foldl (lockStep cfg) s).mem a)
      = if a ∈ L then (s.mem a % 2 ^ 32 ||| bswap32 cfg.settingLock) % 2 ^ 32
        else s.mem a := by
  induction L generalizing s with
  | nil => simp
  | cons x xs ih =>
    have hx : x ∉ xs := (List.nodup_cons.mp hL).1
    have hxs : xs.Nodup := (List.nodup_cons.mp hL).2
    rw [List.foldl_cons, ih hxs]
    rcases Decidable.em (a = x) with h2 | h2
    · subst h2
      simp [hx, lockStep, write32, read32]
    · rcases Decidable.em (a ∈ xs) with h1 | h1 <;>
        simp [h1, h2, lockStep, write32, read32]

theorem foldl_lock_tr (cfg : CsuConfig) (L : List Nat) (hL : L.Nodup) (s : St) :
    ((L.foldl (lockStep cfg) s).tr) = s.tr ++ lockEvents cfg L s.mem := by
  induction L generalizing s with
  | nil => simp [lockEvents]
  | cons x xs ih =>
    have hx : x ∉ xs := (List.nodup_cons.mp hL).1
    have hxs : xs.Nodup := (List.nodup_cons.mp hL).2
    rw [List.foldl_cons, ih hxs]
    have hmem : ∀ a ∈ xs, (lockStep cfg s x).mem a = s.mem a := by
      intro a ha
      have hax : a ≠ x := fun h => hx (h ▸ ha)
      simp [lockStep, write32, hax]
    rw [lockEvents_congr cfg xs _ _ hmem]
    simp [lockStep, write32, read32, lockEvents]

theorem lockPass_mem (cfg : CsuConfig) (s : St) (a : Nat) :
    (lockPass cfg s).mem a
      = if a ∈ csuSlots cfg then (s.mem a % 2 ^ 32 ||| bswap32 cfg.settingLock) % 2 ^ 32
        else s.mem a :=
  foldl_lock_mem cfg _ (csuSlots_nodup cfg) s a

theorem lockPass_tr (cfg : CsuConfig) (s : St) :
    (lockPass cfg s).tr = s.tr ++ lockEvents cfg (csuSlots cfg) s.mem :=
  foldl_lock_tr cfg _ (csuSlots_nodup cfg) s

theorem midMem_eq (cfg : CsuConfig) (s : St) (a : Nat) :
    (restrictPass cfg (grantPass cfg s)).mem a = midMem cfg s.mem a := by
  simp [midMem, restrictPass_mem, grantPass_mem]

theorem midMem_congr (cfg : CsuConfig) (m1 m2 : Nat → Nat)
    (h : ∀ a, m1 a = m2 a) (a : Nat) : midMem cfg m1 a = midMem cfg m2 a := by
  simp only [midMem, restrictPass_mem, grantPass_mem]
  simp [h]

theorem midMem_val (cfg : CsuConfig) (m : Nat → Nat) (a : Nat) :
    midMem cfg m a
      = if a = cfg.base + cfg.csl37 then bswap32 cfg.accessSecOnly % 2 ^ 32
        else if a = cfg.base + cfg.csl30 then bswap32 cfg.accessSecOnly % 2 ^ 32
        else if a ∈ csuSlots cfg then bswap32 cfg.accessAll % 2 ^ 32 else m a := by
  simp [midMem, restrictPass_mem, grantPass_mem]

theorem midMem_lt (cfg : CsuConfig) (m : Nat → Nat) (a : Nat)
    (ha : a ∈ csuSlots cfg) : midMem cfg m a < 2 ^ 32 := by
  rw [midMem_val]
  rcases Decidable.em (a = cfg.base + cfg.csl37) with h37 | h37
  · rw [if_pos h37]
    exact Nat.mod_lt _ (by norm_num)
  · rw [if_neg h37]
    rcases Decidable.em (a = cfg.base + cfg.csl30) with h30 | h30
    · rw [if_pos h30]
      exact Nat.mod_lt _ (by norm_num)
    · rw [if_neg h30, if_pos ha]
      exact Nat.mod_lt _ (by norm_num)

theorem releaseSeq_tr (dc : DcfgConfig) (s : St) :
    (releaseSeq dc s).tr = s.tr ++ releaseEvents dc := by
  simp [releaseSeq, write32, dsbOp, sevOp, releaseEvents]

theorem releaseSeq_mem (dc : DcfgConfig) (s : St) (a : Nat) :
    (releaseSeq dc s).mem a = releaseMem dc s.mem a := by
  simp [releaseSeq, write32, dsbOp, sevOp, releaseMem]

/-- Sample CSU configuration in the style of the Layerscape platform
headers: slot range `[0, 0xE8)` below base `0x01510000`, CSL30 at offset
`0x78`, CSL37 at offset `0x94`, allow-all word `0x00FF00FF`, secure-only
word `0x003F003F`, lock bit word `0x01000100`.  Used only to exercise the
parameterized theorems on a concrete instance. -/
def csuSample : CsuConfig :=
  ⟨0x01510000, 0, 0xE8, 0x78, 0x94, 0x00FF00FF, 0x003F003F, 0x01000100⟩

/-- Sample DCFG configuration: base `0x01EE0000`, scratch register offset
`0x200`, boot release register offset `0xE4`, entry address `0x10000000`. -/
def dcfgSample : DcfgConfig := ⟨0x01EE0000, 0x200, 0xE4, 0x10000000⟩

/-- All-zero machine state used as a concrete starting point. -/
def stZero : St := ⟨fun _ => 0, []⟩

/-- C1: after the CSU block of `plat_cpu_reset_late` runs on the primary
core, every peripheral access slot in the configured range other than CSL30
and CSL37 holds the (byte-swapped) allow-all permission with the lock bit
ORed in, and slots CSL30 and CSL37 hold the (byte-swapped) secure-only
permission with the lock bit ORed in. -/
theorem c1_csu_final_permissions (cfg : CsuConfig) (dc : DcfgConfig)
    (bootSecondaryRequest : Bool) (s : St) (a : Nat) (ha : a ∈ csuSlots cfg) :
    (plat_cpu_reset_late cfg dc bootSecondaryRequest 0 s).mem a
      = if a = cfg.base + cfg.csl30 ∨ a = cfg.base + cfg.csl37
        then bswap32 cfg.accessSecOnly ||| bswap32 cfg.settingLock
        else bswap32 cfg.accessAll ||| bswap32 cfg.settingLock := by
  have hall := Nat.mod_eq_of_lt (bswap32_lt cfg.accessAll)
  have hsec := Nat.mod_eq_of_lt (bswap32_lt cfg.accessSecOnly)
  have hlorall := Nat.mod_eq_of_lt
    (lor_lt_32 (bswap32_lt cfg.accessAll) (bswap32_lt cfg.settingLock))
  have hlorsec := Nat.mod_eq_of_lt
    (lor_lt_32 (bswap32_lt cfg.accessSecOnly) (bswap32_lt cfg.settingLock))
  unfold plat_cpu_reset_late
  rw [if_pos rfl]
  rw [lockPass_mem, if_pos ha, restrictPass_mem, grantPass_mem]
  rcases Decidable.em (a = cfg.base + cfg.csl37) with h37 | h37
  · rw [if_pos (Or.inr h37)]
    simp [h37]
    rw [show (4294967296 : Nat) = 2 ^ 32 from rfl, hsec, hlorsec]
  · rcases Decidable.em (a = cfg.base + cfg.csl30) with h30 | h30
    · rw [if_pos (Or.inl h30)]
      simp [h30, h37]
      rw [show (4294967296 : Nat) = 2 ^ 32 from rfl, hsec, hlorsec]
    · rw [if_neg (by tauto)]
      simp [h30, h37, ha]
      rw [show (4294967296 : Nat) = 2 ^ 32 from rfl, hall, hlorall]

theorem c1_csu_final_permissions_witness :
    csuSample.base + 0x78 ∈ csuSlots csuSample ∧
    (plat_cpu_reset_late csuSample dcfgSample true 0 stZero).mem
        (csuSample.base + 0x78)
      = if csuSample.base + 0x78 = csuSample.base + csuSample.csl30 ∨
           csuSample.base + 0x78 = csuSample.base + csuSample.csl37
        then bswap32 csuSample.accessSecOnly ||| bswap32 csuSample.settingLock
        else bswap32 csuSample.accessAll ||| bswap32 csuSample.settingLock :=
  ⟨by decide,
   c1_csu_final_permissions csuSample dcfgSample true stZero
     (csuSample.base + 0x78) (by decide)⟩

/-- C6: on the primary core the CSU configuration runs its three passes in
strict order (the event trace is the grant-pass writes, then the two
restrict-pass writes, then the lock-pass read/write pairs); every write
issued before the lock pass carries a value with the lock bit clear, so no
slot is ever locked before its final permission value has been written; and
the lock pass writes back each slot's read-back value with only the lock
bit ORed in, preserving the permission bits. -/
theorem c6_csu_pass_order (cfg : CsuConfig) (s : St)
    (hAll : bswap32 cfg.accessAll &&& bswap32 cfg.settingLock = 0)
    (hSec : bswap32 cfg.accessSecOnly &&& bswap32 cfg.settingLock = 0) :
    (lockPass cfg (restrictPass cfg (grantPass cfg s))).tr
        = s.tr ++ grantEvents cfg ++ restrictEvents cfg
            ++ lockEvents cfg (csuSlots cfg) (midMem cfg s.mem) ∧
    (∀ a v, Event.wr a v ∈ grantEvents cfg ++ restrictEvents cfg →
        v &&& bswap32 cfg.settingLock = 0) ∧
    (∀ a ∈ csuSlots cfg,
        (lockPass cfg (restrictPass cfg (grantPass cfg s))).mem a
          = midMem cfg s.mem a ||| bswap32 cfg.settingLock) := by
  refine ⟨?_, ?_, ?_⟩
  · rw [lockPass_tr, restrictPass_tr, grantPass_tr,
      lockEvents_congr cfg (csuSlots cfg) _ _ fun a _ => midMem_eq cfg s a]
  · intro a v hv
    rcases List.mem_append.mp hv with h | h
    · obtain ⟨x, hx, hxe⟩ := List.mem_map.mp h
      have hveq : bswap32 cfg.accessAll = v := by
        have := (Event.wr.injEq _ _ _ _).mp hxe
        exact this.2
      rw [← hveq]
      exact hAll
    · simp only [restrictEvents, List.mem_cons, List.mem_singleton,
        List.not_mem_nil, or_false] at h
      rcases h with h | h
      · have hveq : bswap32 cfg.accessSecOnly = v :=
          ((Event.wr.injEq _ _ _ _).mp h.symm).2
        rw [← hveq]
        exact hSec
      · have hveq : bswap32 cfg.accessSecOnly = v :=
          ((Event.wr.injEq _ _ _ _).mp h.symm).2
        rw [← hveq]
        exact hSec
  · intro a ha
    rw [lockPass_mem, if_pos ha, midMem_eq cfg s a,
      Nat.mod_eq_of_lt (midMem_lt cfg s.mem a ha),
      Nat.mod_eq_of_lt (lor_lt_32 (midMem_lt cfg s.mem a ha)
        (bswap32_lt cfg.settingLock))]

theorem c6_csu_pass_order_witness :
    (bswap32 csuSample.accessAll &&& bswap32 csuSample.settingLock = 0) ∧
    (bswap32 csuSample.accessSecOnly &&& bswap32 csuSample.settingLock = 0) ∧
    ((lockPass csuSample (restrictPass csuSample (grantPass csuSample stZero))).tr
        = stZero.tr ++ grantEvents csuSample ++ restrictEvents csuSample
            ++ lockEvents csuSample (csuSlots csuSample) (midMem csuSample stZero.mem) ∧
     (∀ a v, Event.wr a v ∈ grantEvents csuSample ++ restrictEvents csuSample →
        v &&& bswap32 csuSample.settingLock = 0) ∧
     (∀ a ∈ csuSlots csuSample,
        (lockPass csuSample (restrictPass csuSample (grantPass csuSample stZero))).mem a
          = midMem csuSample stZero.mem a ||| bswap32 csuSample.settingLock)) :=
  ⟨by decide, by decide, c6_csu_pass_order csuSample stZero (by decide) (by decide)⟩

/-- C8: with secondary-release support compiled in, `plat_cpu_reset_late`
performs the release sequence only on the primary core (any other core
leaves the state untouched), and on the primary core the trace opens with
exactly the four release events in order — scratch-register write of the
entry address, release-register write of the core bitmask, memory barrier,
wake event — followed by the CSU passes, the lock pass coming last, so the
release strictly precedes the lock pass. -/
theorem c8_secondary_release_order (cfg : CsuConfig) (dc : DcfgConfig)
    (corePos : Nat) (s : St) :
    (corePos ≠ 0 → plat_cpu_reset_late cfg dc true corePos s = s) ∧
    (plat_cpu_reset_late cfg dc true corePos s).tr
      = if corePos = 0 then
          s.tr ++ releaseEvents dc ++ grantEvents cfg ++ restrictEvents cfg
            ++ lockEvents cfg (csuSlots cfg) (midMem cfg (releaseMem dc s.mem))
        else s.tr := by
  constructor
  · intro h
    simp [plat_cpu_reset_late, h]
  · rcases Decidable.em (corePos = 0) with h0 | h0
    · rw [if_pos h0]
      unfold plat_cpu_reset_late
      rw [if_pos h0]
      rw [show (if true = true then releaseSeq dc s else s) = releaseSeq dc s from rfl]
      rw [lockPass_tr, restrictPass_tr, grantPass_tr, releaseSeq_tr,
        lockEvents_congr cfg (csuSlots cfg) _ _
          fun a _ => midMem_eq cfg (releaseSeq dc s) a,
        lockEvents_congr cfg (csuSlots cfg) _ _
          fun a _ => midMem_congr cfg _ _ (releaseSeq_mem dc s) a]
    · rw [if_neg h0]
      unfold plat_cpu_reset_late
      rw [if_neg h0]

theorem c8_secondary_release_order_witness :
    ((1 : Nat) ≠ 0 → plat_cpu_reset_late csuSample dcfgSample true 1 stZero = stZero) ∧
    (plat_cpu_reset_late csuSample dcfgSample true 1 stZero).tr
      = if (1 : Nat) = 0 then
          stZero.tr ++ releaseEvents dcfgSample ++ grantEvents csuSample
            ++ restrictEvents csuSample
            ++ lockEvents csuSample (csuSlots csuSample)
                (midMem csuSample (releaseMem dcfgSample stZero.mem))
        else stZero.tr :=
  c8_secondary_release_order csuSample dcfgSample 1 stZero

/-- Address-translation environment seen by `get_gic_offset` and
`main_init_gic`: `p2v1` is `phys_to_virt` before any on-demand mapping
(`0` is the null sentinel for an unmapped physical address), `p2v2` is
`phys_to_virt` for the same physical address after the single
`core_mmu_add_mapping` attempt made for it, and `rd` gives the raw 32-bit
register value read at a translated (virtual) address. -/
structure MmuEnv where
  p2v1 : Nat → Nat
  p2v2 : Nat → Nat
  rd : Nat → Nat

/-- Physical address of the chip-revision register: `NXP_DCFG_ADDR +
DCFG_SVR_OFFSET` from the source. -/
def SVR_PA : Nat := 0x01EE0000 + 0x0A4

/-- Physical address of the GIC alignment register: `NXP_SCFG_ADDR +
SCFG_GIC400_ADDR_ALIGN_OFFSET` from the source. -/
def SCFG_ALIGN_PA : Nat := 0x01570000 + 0x0188

/-- The null-check-map-retry pattern of `get_gic_offset`: translate `pa`;
if null, make one on-demand mapping attempt of a `size`-byte region and
translate again; if still null, panic (`none`).  The second component
records the mapping attempts made, as (physical address, size) pairs. -/
def resolveReg (env : MmuEnv) (pa size : Nat) : Option Nat × List (Nat × Nat) :=
  if env.p2v1 pa ≠ 0 then (some (env.p2v1 pa), [])
  else if env.p2v2 pa ≠ 0 then (some (env.p2v2 pa), [(pa, size)])
  else (none, [(pa, size)])

/-- GIC-related platform constants from `platform_config.h`: the GIC block
base and the distributor/CPU-interface offsets — the 4 KiB- and 64 KiB-
aligned variants used by the ls1043ardb locator, and the fixed
`GICC_OFFSET`/`GICD_OFFSET` used by the other flavors. -/
structure GicConfig where
  gicBase : Nat
  gicc4k : Nat
  gicd4k : Nat
  gicc64k : Nat
  gicd64k : Nat
  giccOffset : Nat
  gicdOffset : Nat

/-- Model of `get_gic_offset` (the `PLATFORM_FLAVOR_ls1043ardb` locator): read the
chip revision byte; on revision 0x11 consult bit 31 of the alignment
register to choose between the 4 KiB- and 64 KiB-aligned offset pairs; on
any other revision use the 4 KiB pair.  The result is `none` when the
function panics, otherwise the translated (gicc_base, gicd_base) pair; the
second component records the on-demand mapping attempts made. -/
def get_gic_offset (cfg : GicConfig) (env : MmuEnv) :
    Option (Nat × Nat) × List (Nat × Nat) :=
  match resolveReg env SVR_PA 4 with
  | (none, ms) => (none, ms)
  | (some ccsr_svr, ms1) =>
    if bswap32 (env.rd ccsr_svr % 2 ^ 32) % 2 ^ 8 = 0x11 then
      match resolveReg env SCFG_ALIGN_PA 4 with
      | (none, ms2) => (none, ms1 ++ ms2)
      | (some gic_align, ms2) =>
        if (bswap32 (env.rd gic_align % 2 ^ 32)).testBit 31 then
          (some (env.p2v1 (cfg.gicBase + cfg.gicc4k),
                 env.p2v1 (cfg.gicBase + cfg.gicd4k)), ms1 ++ ms2)
        else
          (some (env.p2v1 (cfg.gicBase + cfg.gicc64k),
                 env.p2v1 (cfg.gicBase + cfg.gicd64k)), ms1 ++ ms2)
    else
      (some (env.p2v1 (cfg.gicBase + cfg.gicc4k),
             env.p2v1 (cfg.gicBase + cfg.gicd4k)), ms1)

/-- The compile-time platform flavor selecting `main_init_gic`'s base
resolution path. -/
inductive BuildFlavor where
  | ls1043ardb
  | other
deriving DecidableEq, Repr

/-- Model of `main_init_gic`: resolve the GIC bases and hand them to `gic_init`.
`none` models the halt through `panic()`; `some (gicc, gicd)` models
reaching `gic_init(&gic_data, gicc_base, gicd_base)` with those values.  On
ls1043ardb the pair comes from `get_gic_offset` and only the distributor
base is checked against the null sentinel; on other flavors the CPU
interface base is resolved and checked only when the build has no GIC
system-register support (`CFG_ARM_GICV3` undefined, `gicv3 = false`), the
distributor base always resolved and checked. -/
def main_init_gic (flavor : BuildFlavor) (gicv3 : Bool) (cfg : GicConfig)
    (env : MmuEnv) : Option (Nat × Nat) :=
  match flavor with
  | .ls1043ardb =>
    match (get_gic_offset cfg env).1 with
    | none => none
    | some (gicc_base, gicd_base) =>
      if gicd_base = 0 then none else some (gicc_base, gicd_base)
  | .other =>
    if gicv3 then
      let gicd_base := env.p2v1 (cfg.gicBase + cfg.gicdOffset)
      if gicd_base = 0 then none else some (0, gicd_base)
    else
      let gicc_base := env.p2v1 (cfg.gicBase + cfg.giccOffset)
      if gicc_base = 0 then none
      else
        let gicd_base := env.p2v1 (cfg.gicBase + cfg.gicdOffset)
        if gicd_base = 0 then none else some (gicc_base, gicd_base)

theorem resolveReg_some (env : MmuEnv) (pa size svr : Nat)
    (h : (resolveReg env pa size).1 = some svr) :
    resolveReg env pa size = (some svr, (resolveReg env pa size).2) :=
  Prod.ext_iff.mpr ⟨h, rfl⟩

/-- C2: `get_gic_offset` returns the 4 KiB-aligned CPU-interface/distributor
pair when the revision byte is 0x11 and bit 31 of the alignment register is
set, the 64 KiB-aligned pair when the revision byte is 0x11 and that bit is
clear, and for every revision byte other than 0x11 the 4 KiB-aligned pair,
regardless of the alignment register's contents. -/
theorem c2_gic_offset_revision (cfg : GicConfig) (env : MmuEnv) (svr : Nat)
    (hs : (resolveReg env SVR_PA 4).1 = some svr) :
    (bswap32 (env.rd svr % 2 ^ 32) % 2 ^ 8 = 0x11 →
      ∀ ga, (resolveReg env SCFG_ALIGN_PA 4).1 = some ga →
        ((bswap32 (env.rd ga % 2 ^ 32)).testBit 31 = true →
          (get_gic_offset cfg env).1
            = some (env.p2v1 (cfg.gicBase + cfg.gicc4k),
                    env.p2v1 (cfg.gicBase + cfg.gicd4k))) ∧
        ((bswap32 (env.rd ga % 2 ^ 32)).testBit 31 = false →
          (get_gic_offset cfg env).1
            = some (env.p2v1 (cfg.gicBase + cfg.gicc64k),
                    env.p2v1 (cfg.gicBase + cfg.gicd64k)))) ∧
    (bswap32 (env.rd svr % 2 ^ 32) % 2 ^ 8 ≠ 0x11 →
      (get_gic_offset cfg env).1
        = some (env.p2v1 (cfg.gicBase + cfg.gicc4k),
                env.p2v1 (cfg.gicBase + cfg.gicd4k))) := by
  have hpair := resolveReg_some env SVR_PA 4 svr hs
  constructor
  · intro h11 ga hga
    have hpair2 := resolveReg_some env SCFG_ALIGN_PA 4 ga hga
    constructor
    · intro hbit
      unfold get_gic_offset
      rw [hpair]
      dsimp only
      rw [if_pos h11, hpair2]
      dsimp only
      rw [if_pos hbit]
    · intro hbit
      unfold get_gic_offset
      rw [hpair]
      dsimp only
      rw [if_pos h11, hpair2]
      dsimp only
      rw [if_neg (by rw [Bool.not_eq_true]; exact hbit)]
  · intro h11
    unfold get_gic_offset
    rw [hpair]
    dsimp only
    rw [if_neg h11]

/-- Sample GIC configuration in the style of the ls1043ardb platform
header: base `0x01400000`, 4 KiB offsets `0x2000`/`0x1000`, 64 KiB offsets
`0x20000`/`0x10000`, fixed offsets `0x2000`/`0x1000`. -/
def gicSample : GicConfig :=
  ⟨0x01400000, 0x2000, 0x1000, 0x20000, 0x10000, 0x2000, 0x1000⟩

/-- Concrete translation environment for exercising the locator: the
revision register is mapped at `0x100` and reads back `0x11000000` (byte
swap `0x00000011`, revision byte 0x11), the alignment register is mapped at
`0x200` and reads back `0x80` (byte swap `0x80000000`, bit 31 set), and the
two 4 KiB GIC blocks translate to `0x3000`/`0x4000`. -/
def envC2 : MmuEnv :=
  ⟨fun pa =>
    if pa = SVR_PA then 0x100
    else if pa = SCFG_ALIGN_PA then 0x200
    else if pa = 0x01400000 + 0x2000 then 0x3000
    else if pa = 0x01400000 + 0x1000 then 0x4000
    else 0,
   fun _ => 0,
   fun va => if va = 0x100 then 0x11000000 else if va = 0x200 then 0x80 else 0⟩

theorem c2_gic_offset_revision_witness :
    ((resolveReg envC2 SVR_PA 4).1 = some 0x100) ∧
    ((bswap32 (envC2.rd 0x100 % 2 ^ 32) % 2 ^ 8 = 0x11 →
      ∀ ga, (resolveReg envC2 SCFG_ALIGN_PA 4).1 = some ga →
        ((bswap32 (envC2.rd ga % 2 ^ 32)).testBit 31 = true →
          (get_gic_offset gicSample envC2).1
            = some (envC2.p2v1 (gicSample.gicBase + gicSample.gicc4k),
                    envC2.p2v1 (gicSample.gicBase + gicSample.gicd4k))) ∧
        ((bswap32 (envC2.rd ga % 2 ^ 32)).testBit 31 = false →
          (get_gic_offset gicSample envC2).1
            = some (envC2.p2v1 (gicSample.gicBase + gicSample.gicc64k),
                    envC2.p2v1 (gicSample.gicBase + gicSample.gicd64k)))) ∧
    (bswap32 (envC2.rd 0x100 % 2 ^ 32) % 2 ^ 8 ≠ 0x11 →
      (get_gic_offset gicSample envC2).1
        = some (envC2.p2v1 (gicSample.gicBase + gicSample.gicc4k),
                envC2.p2v1 (gicSample.gicBase + gicSample.gicd4k)))) :=
  ⟨by decide, c2_gic_offset_revision gicSample envC2 0x100 (by decide)⟩

/-- C7: when translating the chip-revision register yields the null
sentinel, `get_gic_offset` makes exactly one on-demand mapping attempt of
one register-width (4-byte) region and retries the translation once; if the
retry is still null it halts without returning a base pair, and the
mapping-attempt record shows the single attempt.  The same single-attempt
policy applies to the alignment configuration register. -/
theorem c7_unmapped_register_policy (cfg : GicConfig) (env : MmuEnv) :
    (env.p2v1 SVR_PA = 0 → env.p2v2 SVR_PA = 0 →
      get_gic_offset cfg env = (none, [(SVR_PA, 4)])) ∧
    (∀ svr, (resolveReg env SVR_PA 4).1 = some svr →
      bswap32 (env.rd svr % 2 ^ 32) % 2 ^ 8 = 0x11 →
      env.p2v1 SCFG_ALIGN_PA = 0 → env.p2v2 SCFG_ALIGN_PA = 0 →
      get_gic_offset cfg env
        = (none, (resolveReg env SVR_PA 4).2 ++ [(SCFG_ALIGN_PA, 4)])) := by
  constructor
  · intro h1 h2
    have hr : resolveReg env SVR_PA 4 = (none, [(SVR_PA, 4)]) := by
      simp [resolveReg, h1, h2]
    unfold get_gic_offset
    rw [hr]
  · intro svr hs h11 h1 h2
    have hpair := resolveReg_some env SVR_PA 4 svr hs
    have hr : resolveReg env SCFG_ALIGN_PA 4 = (none, [(SCFG_ALIGN_PA, 4)]) := by
      simp [resolveReg, h1, h2]
    unfold get_gic_offset
    rw [hpair]
    dsimp only
    rw [if_pos h11, hr]

/-- Translation environment where nothing is mapped, before or after any
mapping attempt. -/
def envZero : MmuEnv := ⟨fun _ => 0, fun _ => 0, fun _ => 0⟩

theorem c7_unmapped_register_policy_witness :
    get_gic_offset gicSample envZero = (none, [(SVR_PA, 4)]) :=
  (c7_unmapped_register_policy gicSample envZero).1 rfl rfl

/-- C4 (amended): in `main_init_gic` a distributor base that resolves to the
null sentinel always halts before GIC initialization (equivalently: whenever
initialization is reached, the distributor base is non-null), and on the
non-ls1043ardb variant without GIC system-register support a CPU-interface
base that resolves to the null sentinel also halts.  On the revision-aware
ls1043ardb path the CPU-interface base supplied by `get_gic_offset` is not
checked. -/
theorem c4_missing_base_policy (flavor : BuildFlavor) (gicv3 : Bool)
    (cfg : GicConfig) (env : MmuEnv) :
    (∀ p, main_init_gic flavor gicv3 cfg env = some p → p.2 ≠ 0) ∧
    (env.p2v1 (cfg.gicBase + cfg.giccOffset) = 0 →
      main_init_gic BuildFlavor.other false cfg env = none) := by
  constructor
  · intro p hp
    cases flavor with
    | ls1043ardb =>
      unfold main_init_gic at hp
      rcases hg : (get_gic_offset cfg env).1 with _ | q
      · rw [hg] at hp
        exact absurd hp (by simp)
      · rcases q with ⟨gicc, gicd⟩
        rw [hg] at hp
        dsimp only at hp
        rcases Decidable.em (gicd = 0) with h0 | h0
        · rw [if_pos h0] at hp
          exact absurd hp (by simp)
        · rw [if_neg h0] at hp
          have := (Option.some.injEq _ _).mp hp
          rw [← this]
          exact h0
    | other =>
      unfold main_init_gic at hp
      cases gicv3 with
      | true =>
        rcases Decidable.em (env.p2v1 (cfg.gicBase + cfg.gicdOffset) = 0) with h0 | h0
        · simp [h0] at hp
        · rw [if_pos rfl, if_neg h0] at hp
          dsimp only at hp
          injection hp with hp
          intro hz
          rw [← hp] at hz
          exact h0 hz
      | false =>
        rcases Decidable.em (env.p2v1 (cfg.gicBase + cfg.giccOffset) = 0) with hc | hc
        · simp [hc] at hp
        · rcases Decidable.em (env.p2v1 (cfg.gicBase + cfg.gicdOffset) = 0) with h0 | h0
          · simp [hc, h0] at hp
          · rw [if_neg Bool.false_ne_true, if_neg hc, if_neg h0] at hp
            dsimp only at hp
            injection hp with hp
            intro hz
            rw [← hp] at hz
            exact h0 hz
  · intro hc
    simp [main_init_gic, hc]

theorem c4_missing_base_policy_witness :
    envZero.p2v1 (gicSample.gicBase + gicSample.giccOffset) = 0 ∧
    main_init_gic BuildFlavor.other false gicSample envZero = none :=
  ⟨rfl, (c4_missing_base_policy BuildFlavor.other false gicSample envZero).2 rfl⟩

/-- Translation environment for the C4 counterexample: the revision register
is mapped (at `0x100`, reading back a non-0x11 revision), the 4 KiB
distributor block translates to `0x2000`, but the 4 KiB CPU-interface block
is unmapped, so `get_gic_offset` hands back the null sentinel as the
CPU-interface base. -/
def envC4 : MmuEnv :=
  ⟨fun pa =>
    if pa = SVR_PA then 0x100
    else if pa = 0x01400000 + 0x1000 then 0x2000
    else 0,
   fun _ => 0,
   fun _ => 0⟩

theorem c4_counterexample :
    (get_gic_offset gicSample envC4).1 = some (0, 0x2000) ∧
    main_init_gic BuildFlavor.ls1043ardb false gicSample envC4 = some (0, 0x2000) :=
  ⟨by decide, by decide⟩

/-- Function references installable in the boot handler table. -/
inductive HRef where
  | tee_entry_std
  | tee_entry_fast
  | main_fiq
  | cpu_on_handler
  | pm_do_nothing
  | pm_panic
deriving DecidableEq, Repr

/-- Shape of `struct thread_handlers` as filled in by this file. -/
structure ThreadHandlers where
  std_smc : HRef
  fast_smc : HRef
  nintr : HRef
  cpu_on : HRef
  cpu_off : HRef
  cpu_suspend : HRef
  cpu_resume : HRef
  system_off : HRef
  system_reset : HRef

/-- The static `handlers` table.  The only conditional in its initializer
is `#if defined(CFG_WITH_ARM_TRUSTED_FW)`; the `#else` branch contains no
further conditionals, so the table's contents do not depend on
`CFG_BOOT_SECONDARY_REQUEST` (passed here only to record the build
context). -/
def handlers (withArmTrustedFw bootSecondaryRequest : Bool) : ThreadHandlers :=
  if withArmTrustedFw then
    { std_smc := HRef.tee_entry_std
      fast_smc := HRef.tee_entry_fast
      nintr := HRef.main_fiq
      cpu_on := HRef.cpu_on_handler
      cpu_off := HRef.pm_do_nothing
      cpu_suspend := HRef.pm_do_nothing
      cpu_resume := HRef.pm_do_nothing
      system_off := HRef.pm_do_nothing
      system_reset := HRef.pm_do_nothing }
  else
    { std_smc := HRef.tee_entry_std
      fast_smc := HRef.tee_entry_fast
      nintr := HRef.main_fiq
      cpu_on := HRef.pm_panic
      cpu_off := HRef.pm_panic
      cpu_suspend := HRef.pm_panic
      cpu_resume := HRef.pm_panic
      system_off := HRef.pm_panic
      system_reset := HRef.pm_panic }

/-- Model of `main_fiq`, the platform's native-interrupt notification
handler: its whole body is a single `panic()`, so every invocation halts —
`none` models the halt (the handler never returns a value). -/
def main_fiq : Unit → Option Unit := fun _ => none

/-- C10: the interrupt notification hook installed in the boot handler
table is `main_fiq` under every build configuration, and `main_fiq`
unconditionally halts on every invocation — a native-interrupt notification
reaching this platform's handler is never serviced or ignored. -/
theorem c10_nintr_always_panics (withArmTrustedFw bootSecondaryRequest : Bool)
    (u : Unit) :
    (handlers withArmTrustedFw bootSecondaryRequest).nintr = HRef.main_fiq ∧
    main_fiq u = none := by
  refine ⟨?_, rfl⟩
  cases withArmTrustedFw <;> rfl

/-- C5 as stated is false on the code: in a build without
`CFG_WITH_ARM_TRUSTED_FW` but with secondary-release support
(`CFG_BOOT_SECONDARY_REQUEST`) compiled in, `cpu_on` still resolves to the
fatal-stop handler `pm_panic` — the `#else` branch of the table does not
consult the secondary-release option at all. -/
theorem c5_counterexample : (handlers false true).cpu_on = HRef.pm_panic := rfl

/-- C5 (amended): in the boot handler table built without an external
trusted firmware layer, every power-management hook — `cpu_on` included —
resolves to the fatal-stop handler `pm_panic`, regardless of whether
secondary-release support is compiled in. -/
theorem c5_pm_hooks_fatal (bootSecondaryRequest : Bool) :
    (handlers false bootSecondaryRequest).cpu_on = HRef.pm_panic ∧
    (handlers false bootSecondaryRequest).cpu_off = HRef.pm_panic ∧
    (handlers false bootSecondaryRequest).cpu_suspend = HRef.pm_panic ∧
    (handlers false bootSecondaryRequest).cpu_resume = HRef.pm_panic ∧
    (handlers false bootSecondaryRequest).system_off = HRef.pm_panic ∧
    (handlers false bootSecondaryRequest).system_reset = HRef.pm_panic :=
  ⟨rfl, rfl, rfl, rfl, rfl, rfl⟩

/-- Success return code `TEE_SUCCESS` of the TEE API. -/
def TEE_SUCCESS : Nat := 0x00000000

/-- Security-class failure code `TEE_ERROR_SECURITY` of the TEE API
(modelled from the spec: the TEE API header defining it is outside this
fragment; the broker reports a security-class failure on a negative SMC
return). -/
def TEE_ERROR_SECURITY : Nat := 0xFFFF000F

/-- Environment of one `tee_otp_get_hw_unique_key` call: the signed return
value of the `get_hw_unique_key` fast SMC, and the bytes the secure
firmware left in the 64-byte-aligned scratch buffer `hw_unq_key` (one list
entry per byte, same fixed size as the destination). -/
structure HwKeyEnv where
  ret : Int
  scratch : List Nat

/-- Model of `tee_otp_get_hw_unique_key`: issue the SMC; on a strictly
negative return report `TEE_ERROR_SECURITY` and leave the destination
buffer `dest` untouched; otherwise `memcpy` `sizeof(hwkey->data)` — the
length of `dest` — bytes from the scratch buffer into the destination and
report `TEE_SUCCESS`.  The result is the returned code paired with the
destination buffer's contents after the call. -/
def tee_otp_get_hw_unique_key (env : HwKeyEnv) (dest : List Nat) :
    Nat × List Nat :=
  if env.ret < 0 then (TEE_ERROR_SECURITY, dest)
  else (TEE_SUCCESS, env.scratch.take dest.length ++ dest.drop dest.length)

/-- C3: for every negative SMC return value the broker reports the
security-class failure `TEE_ERROR_SECURITY` and leaves every byte of the
destination buffer unchanged from its pre-call value; on a successful
(zero) return it copies exactly the fixed number of bytes from the scratch
buffer into the destination and reports `TEE_SUCCESS`. -/
theorem c3_hw_key_error_handling (env : HwKeyEnv) (dest : List Nat) :
    (env.ret < 0 →
      tee_otp_get_hw_unique_key env dest = (TEE_ERROR_SECURITY, dest)) ∧
    (env.ret = 0 →
      tee_otp_get_hw_unique_key env dest
        = (TEE_SUCCESS, env.scratch.take dest.length ++ dest.drop dest.length)) := by
  constructor
  · intro h
    simp [tee_otp_get_hw_unique_key, h]
  · intro h
    simp [tee_otp_get_hw_unique_key, h]

/-- Call environment where the SMC fails with -1. -/
def hwEnvFail : HwKeyEnv := ⟨-1, [1, 2, 3, 4]⟩

/-- Call environment where the SMC succeeds with 0. -/
def hwEnvOk : HwKeyEnv := ⟨0, [1, 2, 3, 4]⟩

theorem c3_hw_key_error_handling_witness :
    (hwEnvFail.ret < 0 ∧
      tee_otp_get_hw_unique_key hwEnvFail [9, 9, 9, 9]
        = (TEE_ERROR_SECURITY, [9, 9, 9, 9])) ∧
    (hwEnvOk.ret = 0 ∧
      tee_otp_get_hw_unique_key hwEnvOk [9, 9, 9, 9]
        = (TEE_SUCCESS, [1, 2, 3, 4])) :=
  ⟨⟨by decide, (c3_hw_key_error_handling hwEnvFail [9, 9, 9, 9]).1 (by decide)⟩,
   ⟨by decide, (c3_hw_key_error_handling hwEnvOk [9, 9, 9, 9]).2 (by decide)⟩⟩

/-- C9: the broker treats every non-negative SMC return value as success —
for any return of 0 or more (positive values included) it performs the copy
into the destination and returns `TEE_SUCCESS`; the failure branch is taken
exactly when the return value is strictly negative. -/
theorem c9_nonnegative_is_success (env : HwKeyEnv) (dest : List Nat) :
    (0 ≤ env.ret →
      tee_otp_get_hw_unique_key env dest
        = (TEE_SUCCESS, env.scratch.take dest.length ++ dest.drop dest.length)) ∧
    ((tee_otp_get_hw_unique_key env dest).1 = TEE_ERROR_SECURITY ↔ env.ret < 0) := by
  constructor
  · intro h
    simp only [tee_otp_get_hw_unique_key]
    rw [if_neg (by omega)]
  · constructor
    · intro h
      by_contra hneg
      simp only [tee_otp_get_hw_unique_key] at h
      rw [if_neg hneg] at h
      dsimp only at h
      exact absurd h (by decide)
    · intro h
      simp only [tee_otp_get_hw_unique_key]
      rw [if_pos h]

/-- Call environment where the SMC returns the positive value 3. -/
def hwEnvPos : HwKeyEnv := ⟨3, [5, 6]⟩

theorem c9_nonnegative_is_success_witness :
    0 ≤ hwEnvPos.ret ∧
    tee_otp_get_hw_unique_key hwEnvPos [0, 0]
      = (TEE_SUCCESS,
         hwEnvPos.scratch.take [0, 0].length ++ [0, 0].drop [0, 0].length) :=
  ⟨by decide, (c9_nonnegative_is_success hwEnvPos [0, 0]).1 (by decide)⟩
